import Mathlib

/-!
Verification development for the image-pull-secrets provisioner controller.

The Go sources are shallowly embedded: Kubernetes objects become plain
records, the object store becomes an explicit `ClusterState`, every write the
reconcilers perform is recorded as a `WriteOp`, and cluster time is an `Int`
instant.  Library behaviour that the controller merely calls (RFC 3339
parsing/formatting, the cloud-provider token exchanges, the TokenRequest
sub-resource) is abstracted into an `Env` record of oracles; everything the
repository itself implements is translated function by function.
-/

namespace Provisioner

/-- Modelled from the spec: the repository's constants file (annotation and
label keys under the `imagepullsecrets.preferred.jp` namespace) is not among
the provided sources; the exact strings are fixed by spec section 6 and by the
literal strings in the repository's tests. -/
def annotationKeyRegistry : String := "imagepullsecrets.preferred.jp/registry"

/-- Modelled from the spec: audience annotation key. -/
def annotationKeyAudience : String := "imagepullsecrets.preferred.jp/audience"

/-- Modelled from the spec: AWS role ARN annotation key. -/
def annotationKeyAWSRoleARN : String := "imagepullsecrets.preferred.jp/aws-role-arn"

/-- Modelled from the spec: Google workload identity provider annotation key. -/
def annotationKeyGoogleWIDP : String :=
  "imagepullsecrets.preferred.jp/googlecloud-workload-identity-provider"

/-- Modelled from the spec: Google service account email annotation key. -/
def annotationKeyGoogleSA : String :=
  "imagepullsecrets.preferred.jp/googlecloud-service-account-email"

/-- Modelled from the spec: secret-name override annotation key. -/
def annotationKeySecretName : String := "imagepullsecrets.preferred.jp/secret-name"

/-- Modelled from the spec: expiry annotation key on managed secrets. -/
def annotationKeyExpiresAt : String := "imagepullsecrets.preferred.jp/expires-at"

/-- Modelled from the spec: discovery label key on managed secrets. -/
def labelKeyServiceAccount : String := "imagepullsecrets.preferred.jp/service-account"

/-- `validation.DNS1123SubdomainMaxLength` from k8s.io/apimachinery. -/
def dns1123SubdomainMaxLength : Nat := 253

/-- One entry of `metav1.OwnerReference` (the fields `buildImagePullSecret`
sets). -/
structure OwnerReference where
  apiVersion : String
  kind : String
  name : String
  uid : String
  controller : Bool
  deriving Repr, DecidableEq

/-- A `corev1.ServiceAccount` restricted to the fields the controller reads or
writes: identity, the annotation map, the image-pull-secret reference list
(names only), and whether a deletion timestamp is set. -/
structure ServiceAccount where
  ns : String
  name : String
  uid : String
  annotations : List (String × String)
  imagePullSecrets : List String
  deleted : Bool
  deriving Repr, DecidableEq

/-- A `corev1.Secret` restricted to the managed fields. -/
structure Secret where
  ns : String
  name : String
  labels : List (String × String)
  annotations : List (String × String)
  ownerReferences : List OwnerReference
  type : String
  stringData : List (String × String)
  deriving Repr, DecidableEq

/-- Go's `m[k]` on a `map[string]string`: the empty string when absent. -/
def annGetD (m : List (String × String)) (key : String) : String :=
  (m.lookup key).getD ""

/-- Go's `v, ok := m[k]`. -/
def annGet (m : List (String × String)) (key : String) : Option String :=
  m.lookup key

/-- `hasConfig` from config.go: registry and audience non-empty, and either
the AWS role ARN, or both Google annotations, non-empty. -/
def hasConfig (sa : ServiceAccount) : Bool :=
  if annGetD sa.annotations annotationKeyRegistry == "" then false
  else if annGetD sa.annotations annotationKeyAudience == "" then false
  else if annGetD sa.annotations annotationKeyAWSRoleARN != "" then true
  else if annGetD sa.annotations annotationKeyGoogleWIDP != "" then
    annGetD sa.annotations annotationKeyGoogleSA != ""
  else false

/-- Go's `s[:n]` byte slicing, on the character level (all names involved are
ASCII DNS names, where bytes and characters coincide). -/
def strTrunc (s : String) (n : Nat) : String :=
  (s.toList.take n).asString

/-- `secretName` from config.go.  Note that the override annotation value is
returned as-is; only the default `imagepullsecret-<name>` is truncated. -/
def secretName (sa : ServiceAccount) : String :=
  match annGet sa.annotations annotationKeySecretName with
  | some name => name
  | none =>
    let name := "imagepullsecret-" ++ sa.name
    if dns1123SubdomainMaxLength < name.length then strTrunc name dns1123SubdomainMaxLength
    else name

/-- `secretNameIndexed` from config.go: index 0 is the base name; a positive
index appends `-<idx>`, truncating the base (never the suffix) to fit the
DNS subdomain length limit. -/
def secretNameIndexed (sa : ServiceAccount) (idx : Nat) : String :=
  if idx = 0 then secretName sa
  else
    let base := secretName sa
    let suffix := "-" ++ toString idx
    let base' :=
      if dns1123SubdomainMaxLength < base.length + suffix.length then
        strTrunc base (dns1123SubdomainMaxLength - suffix.length)
      else base
    base' ++ suffix

/-- `strings.Split` for a one-character separator, on the character list:
every (possibly empty) run between separators becomes one part, so
`splitCh ',' "a,,b"` is `["a", "", "b"]` and the empty input yields `[""]`. -/
def splitCh (c : Char) : List Char → List (List Char)
  | [] => [[]]
  | x :: xs =>
    if x = c then [] :: splitCh c xs
    else
      match splitCh c xs with
      | [] => [[x]]
      | y :: ys => (x :: y) :: ys

/-- `strings.Split(s, sep)` for a one-character separator. -/
def goSplit (s : String) (c : Char) : List String :=
  (splitCh c s.toList).map List.asString

/-- `resolveAccounts` from serviceaccount_controller.go: the comma-split of
the first non-empty annotation among (Google SA email, AWS role ARN); the
empty list (Go: nil) when neither is set.  `strings.Split` preserves empty
tokens. -/
def resolveAccounts (sa : ServiceAccount) : List String :=
  if annGetD sa.annotations annotationKeyGoogleSA != "" then
    goSplit (annGetD sa.annotations annotationKeyGoogleSA) ','
  else if annGetD sa.annotations annotationKeyAWSRoleARN != "" then
    goSplit (annGetD sa.annotations annotationKeyAWSRoleARN) ','
  else []

/-- One hexadecimal digit, lower case (as `encoding/json` emits them). -/
def hexDigit (n : Nat) : Char :=
  if n < 10 then Char.ofNat (48 + n) else Char.ofNat (87 + n)

/-- The escaping `encoding/json` applies inside a JSON string: quote,
backslash, the common control characters, HTML-relevant characters, and
`\u00XX` for the remaining control characters. -/
def jsonEscapeChar (c : Char) : List Char :=
  if c = '"' then ['\\', '"']
  else if c = '\\' then ['\\', '\\']
  else if c = '\n' then ['\\', 'n']
  else if c = '\r' then ['\\', 'r']
  else if c = '\t' then ['\\', 't']
  else if c = '<' then ['\\', 'u', '0', '0', '3', 'c']
  else if c = '>' then ['\\', 'u', '0', '0', '3', 'e']
  else if c = '&' then ['\\', 'u', '0', '0', '2', '6']
  else if c.toNat < 32 then ['\\', 'u', '0', '0', hexDigit (c.toNat / 16), hexDigit (c.toNat % 16)]
  else [c]

/-- A JSON string literal for `s`, as `encoding/json` marshals it. -/
def jsonQuote (s : String) : String :=
  ('"' :: (s.toList.flatMap jsonEscapeChar) ++ ['"']).asString

/-- The comma-joined members of a JSON object, each a quoted key, a colon and
an already-rendered value, as `encoding/json` emits them (no spaces). -/
def jsonMembers : List (String × String) → String
  | [] => ""
  | [kv] => jsonQuote kv.1 ++ ":" ++ kv.2
  | kv :: rest => jsonQuote kv.1 ++ ":" ++ kv.2 ++ "," ++ jsonMembers rest

/-- A JSON object from already-rendered member values, as `encoding/json`
marshals a struct or a single-entry map (members in order). -/
def jsonObj (fields : List (String × String)) : String :=
  "\x7b" ++ jsonMembers fields ++ "\x7d"

/-- `json.Marshal` of the `dockerConfigJSON` value built in
`buildImagePullSecret`: `auths` maps the registry to a `username`/`password`
entry. -/
def marshalDockerConfigJSON (registry username password : String) : String :=
  jsonObj [("auths",
    jsonObj [(registry,
      jsonObj [("username", jsonQuote username), ("password", jsonQuote password)])])]

/-- `corev1.SecretTypeDockerConfigJson`. -/
def secretTypeDockerConfigJson : String := "kubernetes.io/dockerconfigjson"

/-- `corev1.DockerConfigJsonKey`. -/
def dockerConfigJsonKey : String := ".dockerconfigjson"

/-- `buildImagePullSecret` from the secret-builder source file.  The expiry is
carried as an abstract instant together with the RFC 3339 formatter `fmtTime`
(`time.Time.Format(time.RFC3339)` is library code).  The Go function's error
return is dead: `json.Marshal` cannot fail on this value. -/
def buildImagePullSecret (fmtTime : Int → String) (sa : ServiceAccount)
    (secretName registry username password : String) (expiresAt : Int) : Secret :=
  { ns := sa.ns
    name := secretName
    labels := [(labelKeyServiceAccount, sa.name)]
    annotations := [(annotationKeyExpiresAt, fmtTime expiresAt)]
    ownerReferences := [{ apiVersion := "v1", kind := "ServiceAccount",
                          name := sa.name, uid := sa.uid, controller := true }]
    type := secretTypeDockerConfigJson
    stringData := [(dockerConfigJsonKey, marshalDockerConfigJSON registry username password)] }

/-- The object store visible to one provisioning pass: the principal under
reconciliation and the secrets of the cluster. -/
structure ClusterState where
  sa : ServiceAccount
  secrets : List Secret
  deriving Repr, DecidableEq

/-- A write the reconciler performs against the cluster. -/
inductive WriteOp where
  | createSecret (s : Secret)
  | patchSecret (s : Secret)
  | deleteSecret (name : String)
  | patchSAAttach (name : String)
  | patchSADetach (names : List String)
  deriving Repr, DecidableEq

/-- The secret or attachment name a write addresses (`none` for the detach
patch, which carries a name list). -/
def writeTarget : WriteOp → Option String
  | .createSecret s => some s.name
  | .patchSecret s => some s.name
  | .deleteSecret n => some n
  | .patchSAAttach n => some n
  | .patchSADetach _ => none

/-- An event the reconciler emits on the principal. -/
inductive Event where
  | provisioned (name : String)
  | failedProvisioning (msg : String)
  | decommissioned (names : List String)
  deriving Repr, DecidableEq

/-- `r.Get` on a secret by (namespace, name): the store lookup. -/
def secretLookup (secrets : List Secret) (ns name : String) : Option Secret :=
  secrets.find? fun s => s.ns == ns && s.name == name

/-- The oracles for everything outside the repository: the grace period and
current instant held by the reconciler, RFC 3339 parsing and formatting, and
the provider's credential generation for one account
(`generate` bundles the TokenRequest sub-resource call and the per-provider
token exchanges; it yields `(username, token, expiresAt)` or an error). -/
structure Env where
  grace : Int
  now : Int
  parseTime : String → Option Int
  fmtTime : Int → String
  generate : String → Except String (String × String × Int)

/-- `shouldCreateOrRefreshImagePullSecret` from serviceaccount_controller.go.
The only error return in the Go function is a failing store `Get`, which the
explicit-store model cannot produce; the `Except` layer keeps the signature,
and in particular shows that a missing or unparseable `expires-at` annotation
is caught (the code logs it and proceeds) rather than returned as an error. -/
def shouldCreateOrRefreshImagePullSecret (env : Env) (sa : ServiceAccount)
    (secrets : List Secret) (name : String) : Except String (Bool × Option Int) :=
  if !hasConfig sa then .ok (false, none)
  else
    match secretLookup secrets sa.ns name with
    | none => .ok (true, none)
    | some secret =>
      if !(sa.imagePullSecrets.contains secret.name) then .ok (true, none)
      else
        let expiresRes : Except String Int :=
          match annGet secret.annotations annotationKeyExpiresAt with
          | none => .error "expires-at annotation is missing"
          | some str =>
            match env.parseTime str with
            | none => .error "failed to parse expires-at annotation"
            | some t => .ok t
        match expiresRes with
        | .error _ => .ok (true, none)
        | .ok expiresAt =>
          if expiresAt - env.now < env.grace then .ok (true, some expiresAt)
          else .ok (false, some expiresAt)

/-- Replace the secret with `desired`'s (namespace, name) by `desired`. -/
def replaceSecret (secrets : List Secret) (desired : Secret) : List Secret :=
  secrets.map fun s => if s.ns == desired.ns && s.name == desired.name then desired else s

/-- `ensureSecret` from serviceaccount_controller.go: create when absent,
patch when the stored object differs from the desired one, otherwise no
write. -/
def ensureSecret (st : ClusterState) (desired : Secret) : ClusterState × List WriteOp :=
  match secretLookup st.secrets desired.ns desired.name with
  | none => ({ st with secrets := st.secrets ++ [desired] }, [.createSecret desired])
  | some orig =>
    if orig = desired then (st, [])
    else ({ st with secrets := replaceSecret st.secrets desired }, [.patchSecret desired])

/-- `attachImagePullSecret` from serviceaccount_controller.go: append the name
to the principal's image-pull-secret list unless already present (one
strategic-merge patch). -/
def attachImagePullSecret (st : ClusterState) (name : String) : ClusterState × List WriteOp :=
  if st.sa.imagePullSecrets.contains name then (st, [])
  else
    ({ st with sa := { st.sa with imagePullSecrets := st.sa.imagePullSecrets ++ [name] } },
     [.patchSAAttach name])

/-- `provisionSecretForAccount` from serviceaccount_controller.go: decide,
then generate credentials, build the desired secret, ensure it and attach it.
Returns the evolved state, the writes, the events, the expiry driving the
requeue, and the error aborting the pass (if any). -/
def provisionSecretForAccount (env : Env) (st : ClusterState) (account : String)
    (accountIndex : Nat) :
    ClusterState × List WriteOp × List Event × Option Int × Option String :=
  let name := secretNameIndexed st.sa accountIndex
  match shouldCreateOrRefreshImagePullSecret env st.sa st.secrets name with
  | .error e => (st, [], [], none, some e)
  | .ok (should, exp) =>
    if !should then (st, [], [], exp, none)
    else
      match env.generate account with
      | .error e => (st, [], [.failedProvisioning e], none, some e)
      | .ok (username, token, newExp) =>
        let desired := buildImagePullSecret env.fmtTime st.sa name
          (annGetD st.sa.annotations annotationKeyRegistry) username token newExp
        let ensured := ensureSecret st desired
        let attached := attachImagePullSecret ensured.1 name
        (attached.1, ensured.2 ++ attached.2, [.provisioned name], some newExp, none)

/-- The per-account requeue folding in `Reconcile`: keep the earliest
non-zero expiry. -/
def updateRequeue (cur exp : Option Int) : Option Int :=
  match exp with
  | none => cur
  | some e =>
    match cur with
    | none => some e
    | some c => if e < c then some e else cur

/-- The `for i, account := range accounts` loop of `Reconcile`: sequential
per-account provisioning, aborting the pass on the first error (the error is
returned together with the index at which the pass aborted). -/
def provisionLoop (env : Env) (st : ClusterState) (accounts : List String)
    (i : Nat) (requeueAt : Option Int) :
    ClusterState × List WriteOp × List Event × Option Int × Option (Nat × String) :=
  match accounts with
  | [] => (st, [], [], requeueAt, none)
  | account :: rest =>
    let step := provisionSecretForAccount env st account i
    let requeueAt1 := updateRequeue requeueAt step.2.2.2.1
    match step.2.2.2.2 with
    | some msg => (step.1, step.2.1, step.2.2.1, requeueAt1, some (i, msg))
    | none =>
      let next := provisionLoop env step.1 rest (i + 1) requeueAt1
      (next.1, step.2.1 ++ next.2.1, step.2.2.1 ++ next.2.2.1, next.2.2.2.1, next.2.2.2.2)

/-- The expected-name set: `indexed_name(P, i)` for each account index. -/
def namesInUse (sa : ServiceAccount) : List String :=
  if hasConfig sa then (List.range (resolveAccounts sa).length).map (secretNameIndexed sa)
  else []

/-- `listImagePullSecretsToCleanup` from serviceaccount_controller.go: the
secrets in the principal's namespace carrying its service-account label whose
name is outside the expected-name set. -/
def listImagePullSecretsToCleanup (st : ClusterState) : List Secret :=
  let labeled := st.secrets.filter fun s =>
    s.ns == st.sa.ns && annGet s.labels labelKeyServiceAccount == some st.sa.name
  labeled.filter fun s => !((namesInUse st.sa).contains s.name)

/-- `cleanupImagePullSecrets` from serviceaccount_controller.go: detach all
cleanup targets in one patch, then delete each; returns the decommissioned
names. -/
def cleanupImagePullSecrets (st : ClusterState) :
    ClusterState × List WriteOp × List String :=
  let targets := listImagePullSecretsToCleanup st
  if targets.isEmpty then (st, [], [])
  else
    let names := targets.map (·.name)
    let retained := st.sa.imagePullSecrets.filter fun n => !(names.contains n)
    let st1 := { st with sa := { st.sa with imagePullSecrets := retained } }
    let st2 := { st1 with
      secrets := st1.secrets.filter fun s => !(s.ns == st.sa.ns && names.contains s.name) }
    (st2, WriteOp.patchSADetach names :: names.map WriteOp.deleteSecret, names)

/-- The outcome of one provisioning-reconciler pass. -/
structure ReconcileResult where
  state : ClusterState
  writes : List WriteOp
  events : List Event
  requeueAfter : Option Int
  error : Option (Nat × String)
  deriving Repr, DecidableEq

/-- `Reconcile` of the provisioning reconciler: skip principals marked for
deletion; when configuration is present run the per-account loop, aborting on
the first failure (cleanup is skipped in that case); then clean up orphaned
secrets and compute the requeue instant `earliest expiry − grace`. -/
def reconcile (env : Env) (st : ClusterState) : ReconcileResult :=
  if st.sa.deleted then ⟨st, [], [], none, none⟩
  else
    let prov :=
      if hasConfig st.sa then provisionLoop env st (resolveAccounts st.sa) 0 none
      else (st, [], [], none, none)
    match prov.2.2.2.2 with
    | some ie => ⟨prov.1, prov.2.1, prov.2.2.1, none, some ie⟩
    | none =>
      let cln := cleanupImagePullSecrets prov.1
      let e2 := if cln.2.2.isEmpty then [] else [Event.decommissioned cln.2.2]
      ⟨cln.1, prov.2.1 ++ cln.2.1, prov.2.2.1 ++ e2,
        prov.2.2.2.1.map (fun t => t - env.grace - env.now), none⟩

/-- A `corev1.Pod` restricted to the fields the eviction reconciler reads.
Container statuses are reduced to their waiting reason (`none` when the
container is not in a waiting state). -/
structure Pod where
  ns : String
  name : String
  serviceAccountName : String
  imagePullSecrets : List String
  phase : String
  initContainersCount : Nat
  containersCount : Nat
  initContainerStatuses : List (Option String)
  containerStatuses : List (Option String)
  deriving Repr, DecidableEq

/-- `hasImagePullSecret` from the evictor source: membership of the secret
name in the pod's `spec.imagePullSecrets`. -/
def hasImagePullSecret (pod : Pod) (secret : String) : Bool :=
  pod.imagePullSecrets.contains secret

/-- `isImagePullFailing` from the evictor source (production path; the
`testing.Testing()` short-circuit is test scaffolding): some init or main
container is waiting with reason `ErrImagePull` or `ImagePullBackOff`. -/
def isImagePullFailing (pod : Pod) : Bool :=
  (pod.initContainerStatuses ++ pod.containerStatuses).any fun w =>
    w == some "ErrImagePull" || w == some "ImagePullBackOff"

/-- `canFailImagePullLater` from the evictor source (production path). -/
def canFailImagePullLater (pod : Pod) : Bool :=
  if pod.phase != "Pending" then false
  else if pod.initContainerStatuses.length < pod.initContainersCount
       || pod.containerStatuses.length < pod.containersCount then true
  else
    (pod.initContainerStatuses ++ pod.containerStatuses).any fun w =>
      w == some "PodInitializing" || w == some "ContainerCreating"

/-- `getProvisionedImagePullSecret` from the evictor source: `none` when the
principal has no attachments or no secret named `secretName(sa)` exists in
its namespace.  Note the lookup is by name only; the service-account label is
not consulted. -/
def getProvisionedImagePullSecret (sa : ServiceAccount) (secrets : List Secret) :
    Option String :=
  if sa.imagePullSecrets.isEmpty then none
  else
    match secretLookup secrets sa.ns (secretName sa) with
    | none => none
    | some secret => some secret.name

/-- `listPodsToEvict` from the evictor source: among the pods of the
principal's namespace that use it, those lacking the secret and failing an
image pull are eviction targets; a pod lacking the secret that may still fail
later requests a requeue.  (The store-backed pod list is passed in; the field
index on `spec.serviceAccountName` and the namespace selector become the
filter.) -/
def listPodsToEvict (sa : ServiceAccount) (pods : List Pod) (secret : String) :
    List Pod × Bool :=
  let relevant := pods.filter fun p => p.ns == sa.ns && p.serviceAccountName == sa.name
  (relevant.filter fun p => !hasImagePullSecret p secret && isImagePullFailing p,
   relevant.any fun p =>
     !hasImagePullSecret p secret && !isImagePullFailing p && canFailImagePullLater p)

/-- The outcome of one eviction-reconciler pass: whether the pod list was
consulted, the pods for which an eviction was issued, and whether a requeue
was requested. -/
structure EvictResult where
  listedPods : Bool
  evictions : List Pod
  requeue : Bool
  deriving Repr, DecidableEq

/-- `Reconcile` of the eviction reconciler, for a principal that exists: when
no provisioned secret is found the pass is a no-op; otherwise every listed
target receives an eviction call.  (Per-eviction API failures only affect
events and the returned error, not which pods eviction is attempted for.) -/
def evictorReconcile (sa : ServiceAccount) (secrets : List Secret) (pods : List Pod) :
    EvictResult :=
  match getProvisionedImagePullSecret sa secrets with
  | none => ⟨false, [], false⟩
  | some secret =>
    let (targets, requeue) := listPodsToEvict sa pods secret
    ⟨true, targets, requeue⟩

/-- `strings.SplitN`'s search for the first separator occurrence: the part
before it and the remainder, or `none` when the separator is absent. -/
def splitFirst (c : Char) : List Char → Option (List Char × List Char)
  | [] => none
  | x :: xs =>
    if x = c then some ([], xs)
    else (splitFirst c xs).map fun p => (x :: p.1, p.2)

/-- `strings.SplitN(s, sep, n)` for a single-character separator: at most `n`
parts, the last holding the unsplit remainder. -/
def splitNCh (c : Char) : Nat → List Char → List (List Char)
  | 0, _ => []
  | 1, l => [l]
  | n + 2, l =>
    match splitFirst c l with
    | none => [l]
    | some (a, rest) => a :: splitNCh c (n + 1) rest

/-- `ExtractRegion` from the AWS client source: split the registry on `.` into
at most five parts and return the fourth; error when fewer than five parts
result.  Only the part count is validated. -/
def ExtractRegion (registry : String) : Except String String :=
  let parts := splitNCh '.' 5 registry.toList
  if parts.length = 5 then .ok (parts.getD 3 []).asString
  else .error ("unexpected registry format: " ++ registry)

/-! Concrete fixtures used by witnesses and counterexamples. -/

/-- A Google-configured principal with one account, an operator-placed
`static` attachment and the managed secret attached. -/
def saGoogle : ServiceAccount :=
  { ns := "ns1", name := "sa-0", uid := "uid-0"
    annotations := [
      (annotationKeyRegistry, "eu-docker.pkg.dev"),
      (annotationKeyAudience, "aud"),
      (annotationKeyGoogleWIDP, "projects/1/providers/prv"),
      (annotationKeyGoogleSA, "a@p.iam.gserviceaccount.com")]
    imagePullSecrets := ["static", "imagepullsecret-sa-0"]
    deleted := false }

/-- The managed secret of `saGoogle`, fresh until instant 1000. -/
def secretConverged : Secret :=
  { ns := "ns1", name := "imagepullsecret-sa-0"
    labels := [(labelKeyServiceAccount, "sa-0")]
    annotations := [(annotationKeyExpiresAt, "2030-01-01T00:00:00Z")]
    ownerReferences := [{ apiVersion := "v1", kind := "ServiceAccount",
                          name := "sa-0", uid := "uid-0", controller := true }]
    type := secretTypeDockerConfigJson
    stringData := [(dockerConfigJsonKey, "payload")] }

/-- An oracle environment: grace one minute, now 0, a parser recognising the
one timestamp of `secretConverged`, and a provider that is never consulted. -/
def envW : Env :=
  { grace := 60, now := 0
    parseTime := fun s => if s = "2030-01-01T00:00:00Z" then some 1000 else none
    fmtTime := fun _ => "2030-01-01T00:00:00Z"
    generate := fun _ => .error "unused" }

/-- `saGoogle` together with its converged secret store. -/
def stConverged : ClusterState := { sa := saGoogle, secrets := [secretConverged] }

/-- A two-account principal, with nothing provisioned yet. -/
def saTwo : ServiceAccount :=
  { ns := "ns1", name := "sa-0", uid := "uid-0"
    annotations := [
      (annotationKeyRegistry, "eu-docker.pkg.dev"),
      (annotationKeyAudience, "aud"),
      (annotationKeyGoogleWIDP, "projects/1/providers/prv"),
      (annotationKeyGoogleSA, "a@x,b@x")]
    imagePullSecrets := ["static"]
    deleted := false }

/-- An environment whose provider succeeds for the first account of `saTwo`
and fails for the second. -/
def envC10 : Env :=
  { grace := 60, now := 0
    parseTime := fun _ => none
    fmtTime := fun _ => "2030-01-01T00:00:00Z"
    generate := fun account =>
      if account = "a@x" then .ok ("u", "tok", 500) else .error "boom" }

/-- `saTwo` with an empty secret store. -/
def stC10 : ClusterState := { sa := saTwo, secrets := [] }

/-- A principal whose secret-name override annotation is 254 characters
long. -/
def saC5 : ServiceAccount :=
  { ns := "ns1", name := "sa-long", uid := "u"
    annotations := [(annotationKeySecretName, (List.replicate 254 'a').asString)]
    imagePullSecrets := [], deleted := false }

/-- A principal with the secret-name override `mypull`. -/
def saW5 : ServiceAccount :=
  { ns := "ns1", name := "sa-0", uid := "u"
    annotations := [(annotationKeySecretName, "mypull")]
    imagePullSecrets := [], deleted := false }

/-- A principal whose Google account annotation contains an empty token. -/
def saC6 : ServiceAccount :=
  { ns := "ns1", name := "sa-0", uid := "u"
    annotations := [(annotationKeyGoogleSA, "a@x,,b@x")]
    imagePullSecrets := [], deleted := false }

/-- A principal with two well-formed Google accounts. -/
def saW6 : ServiceAccount :=
  { ns := "ns1", name := "sa-0", uid := "u"
    annotations := [(annotationKeyGoogleSA, "gsa1@x,gsa2@x")]
    imagePullSecrets := [], deleted := false }

/-- A secret named like `saGoogle`'s canonical secret but carrying no
service-account label (an operator-created secret). -/
def secretUnlabeled : Secret :=
  { ns := "ns1", name := "imagepullsecret-sa-0", labels := [], annotations := []
    ownerReferences := [], type := "Opaque", stringData := [] }

/-- A pod of `saGoogle` stuck in image-pull failure, with no image pull
secrets. -/
def podFailing : Pod :=
  { ns := "ns1", name := "pod-1", serviceAccountName := "sa-0"
    imagePullSecrets := [], phase := "Pending"
    initContainersCount := 0, containersCount := 1
    initContainerStatuses := [], containerStatuses := [some "ErrImagePull"] }

/-- A pod of `saGoogle` which carries the canonical secret yet is failing an
image pull. -/
def podWithSecret : Pod :=
  { ns := "ns1", name := "pod-2", serviceAccountName := "sa-0"
    imagePullSecrets := ["imagepullsecret-sa-0"], phase := "Pending"
    initContainersCount := 0, containersCount := 1
    initContainerStatuses := [], containerStatuses := [some "ErrImagePull"] }

/-! Helper lemmas. -/

theorem toList_append (s t : String) : (s ++ t).toList = s.toList ++ t.toList :=
  String.data_append s t

theorem strTrunc_length (s : String) (n : Nat) :
    (strTrunc s n).length = min n s.length := by
  show (s.toList.take n).length = min n s.length
  simp [List.length_take]

theorem strTrunc_toList (s : String) (n : Nat) :
    (strTrunc s n).toList = s.toList.take n := rfl

/-! C4 -/

/-- C4: `indexed_name(P, 0)` equals `secret_name(P)`; for positive `i` the
result is a (character-level) prefix of the base name followed by the
untruncated suffix `-<i>`, its total length never exceeds the DNS subdomain
length limit, and the function is pure — the same `(P, i)` always yields the
same name.  The hypothesis bounds the suffix length by the limit, which holds
for every account index a pass can produce (Go would panic on the negative
slice bound otherwise). -/
theorem secretNameIndexed_spec (sa : ServiceAccount) (i : Nat) (hi : 0 < i)
    (hs : ("-" ++ toString i).length ≤ dns1123SubdomainMaxLength) :
    secretNameIndexed sa 0 = secretName sa ∧
    (∃ b t, secretNameIndexed sa i = b ++ ("-" ++ toString i) ∧
      (secretName sa).toList = b.toList ++ t) ∧
    (secretNameIndexed sa i).length ≤ dns1123SubdomainMaxLength ∧
    (∀ sa' i', sa' = sa → i' = i → secretNameIndexed sa' i' = secretNameIndexed sa i) := by
  have hne : i ≠ 0 := by omega
  have hif : secretNameIndexed sa i =
      (if dns1123SubdomainMaxLength < (secretName sa).length + ("-" ++ toString i).length
        then strTrunc (secretName sa)
          (dns1123SubdomainMaxLength - ("-" ++ toString i).length)
        else secretName sa) ++ ("-" ++ toString i) := by
    simp only [secretNameIndexed, hne, if_false, ite_false]
  refine ⟨by simp [secretNameIndexed], ?_, ?_, by intro sa' i' h1 h2; rw [h1, h2]⟩
  · by_cases hlen :
      dns1123SubdomainMaxLength < (secretName sa).length + ("-" ++ toString i).length
    · refine ⟨strTrunc (secretName sa)
          (dns1123SubdomainMaxLength - ("-" ++ toString i).length),
        (secretName sa).toList.drop
          (dns1123SubdomainMaxLength - ("-" ++ toString i).length), ?_, ?_⟩
      · rw [hif, if_pos hlen]
      · rw [strTrunc_toList]
        exact (List.take_append_drop _ _).symm
    · exact ⟨secretName sa, [], by rw [hif, if_neg hlen], by simp⟩
  · by_cases hlen :
      dns1123SubdomainMaxLength < (secretName sa).length + ("-" ++ toString i).length
    · rw [hif, if_pos hlen, String.length_append, strTrunc_length]
      have := Nat.min_le_left
        (dns1123SubdomainMaxLength - ("-" ++ toString i).length) (secretName sa).length
      omega
    · rw [hif, if_neg hlen, String.length_append]
      omega

/-- C4 witness: the two computational conjuncts at the fixture principal and
index 1. -/
theorem secretNameIndexed_spec_witness :
    secretNameIndexed saGoogle 0 = secretName saGoogle ∧
    (secretNameIndexed saGoogle 1).length ≤ dns1123SubdomainMaxLength :=
  ⟨(secretNameIndexed_spec saGoogle 1 (by decide) (by decide)).1,
   (secretNameIndexed_spec saGoogle 1 (by decide) (by decide)).2.2.1⟩

/-! C5 -/

set_option maxRecDepth 4096 in
/-- C5 counterexample: a principal whose secret-name override annotation is
254 characters long; `secretName` returns it untruncated, exceeding the DNS
subdomain length limit — the claim's "in both cases the returned string is
truncated" fails on the override path. -/
theorem secretName_override_not_truncated :
    annGet saC5.annotations annotationKeySecretName ≠ none ∧
    dns1123SubdomainMaxLength < (secretName saC5).length := by
  exact ⟨by decide, by decide⟩

/-- C5 (amended): `secret_name(P)` returns the override annotation value
verbatim when the annotation is set (without truncation, so it may exceed the
limit); otherwise it returns `imagepullsecret-<name>` truncated to the DNS
subdomain length limit, a prefix of the untruncated default of length at most
253. -/
theorem secretName_spec (sa : ServiceAccount) :
    (∀ v, annGet sa.annotations annotationKeySecretName = some v → secretName sa = v) ∧
    (annGet sa.annotations annotationKeySecretName = none →
      (secretName sa).length ≤ dns1123SubdomainMaxLength ∧
      ∃ t, ("imagepullsecret-" ++ sa.name).toList = (secretName sa).toList ++ t) := by
  constructor
  · intro v hv
    simp [secretName, hv]
  · intro hv
    have hif : secretName sa =
        if dns1123SubdomainMaxLength < ("imagepullsecret-" ++ sa.name).length
          then strTrunc ("imagepullsecret-" ++ sa.name) dns1123SubdomainMaxLength
          else "imagepullsecret-" ++ sa.name := by
      simp only [secretName, hv]
    by_cases hlen : dns1123SubdomainMaxLength < ("imagepullsecret-" ++ sa.name).length
    · rw [hif, if_pos hlen]
      constructor
      · rw [strTrunc_length]
        have := Nat.min_le_left dns1123SubdomainMaxLength
          ("imagepullsecret-" ++ sa.name).length
        omega
      · refine ⟨("imagepullsecret-" ++ sa.name).toList.drop dns1123SubdomainMaxLength, ?_⟩
        rw [strTrunc_toList]
        exact (List.take_append_drop _ _).symm
    · rw [hif, if_neg hlen]
      exact ⟨by omega, [], by simp⟩

/-- C5 witness: the override path at a concrete principal. -/
theorem secretName_spec_witness : secretName saW5 = "mypull" :=
  (secretName_spec saW5).1 "mypull" (by decide)

/-! C6 -/

/-- C6 counterexample: a Google account annotation with consecutive commas;
`strings.Split` preserves the empty token, so the resolved account list
contains an empty string, refuting the claim. -/
theorem resolveAccounts_empty_token : "" ∈ resolveAccounts saC6 := by decide

/-- C6 (amended): every element of the resolved account list is non-empty
provided the selected annotation value contains no empty comma-separated
token; `resolveAccounts` itself performs no filtering, so consecutive,
leading or trailing commas do surface as empty elements. -/
theorem resolveAccounts_no_empty (sa : ServiceAccount)
    (hg : annGetD sa.annotations annotationKeyGoogleSA ≠ "" →
      "" ∉ goSplit (annGetD sa.annotations annotationKeyGoogleSA) ',')
    (ha : annGetD sa.annotations annotationKeyAWSRoleARN ≠ "" →
      "" ∉ goSplit (annGetD sa.annotations annotationKeyAWSRoleARN) ',') :
    ∀ x ∈ resolveAccounts sa, x ≠ "" := by
  intro x hx
  unfold resolveAccounts at hx
  by_cases h1 : annGetD sa.annotations annotationKeyGoogleSA = ""
  · simp only [h1] at hx
    by_cases h2 : annGetD sa.annotations annotationKeyAWSRoleARN = ""
    · simp only [h2] at hx
      simp at hx
    · simp only [bne_iff_ne, ne_eq, h2, not_false_eq_true, if_true, if_neg] at hx
      intro he
      exact ha h2 (he ▸ hx)
  · simp only [bne_iff_ne, ne_eq, h1, not_false_eq_true, if_true] at hx
    intro he
    exact hg h1 (he ▸ hx)

/-- C6 witness: the amended statement at a two-account principal. -/
theorem resolveAccounts_no_empty_witness : "gsa1@x" ≠ "" :=
  resolveAccounts_no_empty saW6 (by decide) (by decide) "gsa1@x" (by decide)

/-! C7 -/

/-- C7: the builder populates every managed field from its inputs: namespace
and owner uid from the principal, the service-account label, the formatted
expires-at annotation, exactly one controller owner reference, the
docker-config-json type, and a `.dockerconfigjson` payload that is exactly
the JSON object with an `auths` member mapping the registry to a
username/password entry and nothing else.  Being a pure function of its
arguments, the builder is deterministic; the final conjunct records this, and
the RFC 3339 rendering of the expiry is the abstracted `fmtTime`. -/
theorem buildImagePullSecret_spec (fmtTime : Int → String) (sa : ServiceAccount)
    (name registry username password : String) (expiresAt : Int) :
    (buildImagePullSecret fmtTime sa name registry username password expiresAt).ns = sa.ns ∧
    (buildImagePullSecret fmtTime sa name registry username password expiresAt).name = name ∧
    annGet (buildImagePullSecret fmtTime sa name registry username password expiresAt).labels
      labelKeyServiceAccount = some sa.name ∧
    annGet (buildImagePullSecret fmtTime sa name registry username password
      expiresAt).annotations annotationKeyExpiresAt = some (fmtTime expiresAt) ∧
    (buildImagePullSecret fmtTime sa name registry username password
      expiresAt).ownerReferences =
      [{ apiVersion := "v1", kind := "ServiceAccount", name := sa.name, uid := sa.uid,
         controller := true }] ∧
    (buildImagePullSecret fmtTime sa name registry username password expiresAt).type =
      secretTypeDockerConfigJson ∧
    annGet (buildImagePullSecret fmtTime sa name registry username password
      expiresAt).stringData dockerConfigJsonKey =
      some ("\x7b" ++ jsonQuote "auths" ++ ":" ++ "\x7b" ++ jsonQuote registry ++ ":"
        ++ "\x7b" ++ jsonQuote "username" ++ ":" ++ jsonQuote username ++ ","
        ++ jsonQuote "password" ++ ":" ++ jsonQuote password
        ++ "\x7d" ++ "\x7d" ++ "\x7d") ∧
    buildImagePullSecret fmtTime sa name registry username password expiresAt =
      buildImagePullSecret fmtTime sa name registry username password expiresAt := by
  refine ⟨rfl, rfl, ?_, ?_, rfl, rfl, ?_, rfl⟩
  · simp [buildImagePullSecret, annGet]
  · simp [buildImagePullSecret, annGet]
  · have hdata : marshalDockerConfigJSON registry username password =
        "\x7b" ++ jsonQuote "auths" ++ ":" ++ "\x7b" ++ jsonQuote registry ++ ":"
        ++ "\x7b" ++ jsonQuote "username" ++ ":" ++ jsonQuote username ++ ","
        ++ jsonQuote "password" ++ ":" ++ jsonQuote password
        ++ "\x7d" ++ "\x7d" ++ "\x7d" := by
      apply String.ext
      simp only [marshalDockerConfigJSON, jsonObj, jsonMembers, String.data_append,
        List.append_assoc]
    simp [buildImagePullSecret, annGet, hdata]

/-! C8 -/

theorem splitFirst_append {c : Char} {a : List Char} (r : List Char) (h : c ∉ a) :
    splitFirst c (a ++ c :: r) = some (a, r) := by
  induction a with
  | nil => simp [splitFirst]
  | cons x xs ih =>
    have hx : ¬ x = c := by
      intro e
      exact h (e ▸ List.mem_cons_self x xs)
    have hxs : c ∉ xs := fun hm => h (List.mem_cons_of_mem _ hm)
    simp [splitFirst, hx, ih hxs]

theorem splitNCh_cons {c : Char} {a : List Char} (n : Nat) (r : List Char) (h : c ∉ a) :
    splitNCh c (n + 2) (a ++ c :: r) = a :: splitNCh c (n + 1) r := by
  simp [splitNCh, splitFirst_append r h]

theorem splitFirst_count {c : Char} :
    ∀ {l a r : List Char}, splitFirst c l = some (a, r) → r.count c + 1 ≤ l.count c := by
  intro l
  induction l with
  | nil => intro a r h; simp [splitFirst] at h
  | cons x xs ih =>
    intro a r h
    by_cases hx : x = c
    · subst hx
      simp [splitFirst] at h
      obtain ⟨_, rfl⟩ := h
      simp [List.count_cons]
    · cases hpq : splitFirst c xs with
      | none => simp [splitFirst, hx, hpq] at h
      | some p =>
        simp [splitFirst, hx, hpq] at h
        have := ih (show splitFirst c xs = some (p.1, p.2) by rw [hpq])
        have hr : r = p.2 := h.2.symm
        subst hr
        simp [List.count_cons, hx]
        omega

theorem splitNCh_length_le (c : Char) :
    ∀ (n : Nat) (l : List Char), (splitNCh c n l).length ≤ l.count c + 1
  | 0, l => by simp [splitNCh]
  | 1, l => by simp [splitNCh]
  | n + 2, l => by
    match hsf : splitFirst c l with
    | none => simp [splitNCh, hsf]
    | some (a, r) =>
      have h1 := splitNCh_length_le c (n + 1) r
      have h2 := splitFirst_count hsf
      simp [splitNCh, hsf]
      omega

/-- C8 counterexample: a registry that is visibly not of the
`<account>.dkr.ecr.<region>.amazonaws.com` form (it does not even end in
`.amazonaws.com`) for which `ExtractRegion` returns a component without
error, refuting "for every malformed registry string it returns an error". -/
theorem ExtractRegion_malformed_no_error :
    ExtractRegion "this.is.not.an.ecr-registry" = .ok "an" ∧
    List.isSuffixOf ".amazonaws.com".toList "this.is.not.an.ecr-registry".toList = false := by
  exact ⟨rfl, by decide⟩

/-- C8 (amended): for every registry of the well-formed ECR shape
(dot-free account and region) the fourth dot-separated component — the
region — is returned without error; an error is returned when the registry
has fewer than four dots.  Only the component count is validated, so other
malformed registries with four or more dots also yield an `ok` result. -/
theorem ExtractRegion_spec :
    (∀ account region : String, '.' ∉ account.toList → '.' ∉ region.toList →
      ExtractRegion (account ++ ".dkr.ecr." ++ region ++ ".amazonaws.com") = .ok region) ∧
    (∀ registry : String, registry.toList.count '.' < 4 →
      ExtractRegion registry = .error ("unexpected registry format: " ++ registry)) := by
  constructor
  · intro account region ha hr
    have htl : (account ++ ".dkr.ecr." ++ region ++ ".amazonaws.com").toList
        = account.toList ++ '.' :: (['d', 'k', 'r'] ++ '.' :: (['e', 'c', 'r'] ++ '.' ::
          (region.toList ++ '.' :: ['a', 'm', 'a', 'z', 'o', 'n', 'a', 'w', 's', '.', 'c', 'o', 'm']))) := by
      rw [toList_append, toList_append, toList_append]
      show account.toList ++ ['.', 'd', 'k', 'r', '.', 'e', 'c', 'r', '.'] ++ region.toList
        ++ ['.', 'a', 'm', 'a', 'z', 'o', 'n', 'a', 'w', 's', '.', 'c', 'o', 'm'] = _
      simp
    have hsplit : splitNCh '.' 5 (account ++ ".dkr.ecr." ++ region ++ ".amazonaws.com").toList
        = [account.toList, ['d', 'k', 'r'], ['e', 'c', 'r'], region.toList,
           ['a', 'm', 'a', 'z', 'o', 'n', 'a', 'w', 's', '.', 'c', 'o', 'm']] := by
      rw [htl]
      rw [show (5 : Nat) = 3 + 2 from rfl, splitNCh_cons 3 _ ha]
      rw [show (3 + 1 : Nat) = 2 + 2 from rfl, splitNCh_cons 2 _ (by decide)]
      rw [show (2 + 1 : Nat) = 1 + 2 from rfl, splitNCh_cons 1 _ (by decide)]
      rw [show (1 + 1 : Nat) = 0 + 2 from rfl, splitNCh_cons 0 _ hr]
      rfl
    unfold ExtractRegion
    rw [hsplit]
    rfl
  · intro registry hcnt
    have e : registry.toList = registry.data := rfl
    have hlen := splitNCh_length_le '.' 5 registry.toList
    rw [e] at hlen hcnt
    have hne : ¬(splitNCh '.' 5 registry.data).length = 5 := by omega
    unfold ExtractRegion
    simp [hne]

/-- C8 witness: both amended conjuncts at concrete registries. -/
theorem ExtractRegion_spec_witness :
    ExtractRegion "999.dkr.ecr.us-east-1.amazonaws.com" = .ok "us-east-1" ∧
    ExtractRegion "999.dkr.amazonaws.com" =
      .error "unexpected registry format: 999.dkr.amazonaws.com" :=
  ⟨ExtractRegion_spec.1 "999" "us-east-1" (by decide) (by decide),
   ExtractRegion_spec.2 "999.dkr.amazonaws.com" (by decide)⟩

/-! C2 and C9: the eviction reconciler. -/

theorem secretLookup_some {secrets : List Secret} {ns name : String} {s : Secret}
    (h : secretLookup secrets ns name = some s) : s.ns = ns ∧ s.name = name := by
  have := List.find?_some h
  simp at this
  exact this

/-- C2: a pod whose `spec.imagePullSecrets` contains `indexed_name(P, 0)` is
never selected as an eviction target and never receives an eviction call,
whatever its container statuses and whatever other expected secrets it
lacks: the gate `hasImagePullSecret` is checked before either failure
predicate, and the secret the reconciler gates on is always
`secretName(P) = indexed_name(P, 0)`. -/
theorem evictor_gate (sa : ServiceAccount) (secrets : List Secret) (pods : List Pod)
    (pod : Pod) (_hmem : pod ∈ pods)
    (hhas : secretNameIndexed sa 0 ∈ pod.imagePullSecrets) :
    pod ∉ (evictorReconcile sa secrets pods).evictions := by
  intro hev
  unfold evictorReconcile at hev
  cases hg : getProvisionedImagePullSecret sa secrets with
  | none =>
    rw [hg] at hev
    simp at hev
  | some secret =>
    rw [hg] at hev
    have hsec : secret = secretName sa := by
      unfold getProvisionedImagePullSecret at hg
      by_cases he : sa.imagePullSecrets.isEmpty
      · simp [he] at hg
      · cases hl : secretLookup secrets sa.ns (secretName sa) with
        | none => simp [he, hl] at hg
        | some s =>
          simp [he, hl] at hg
          rw [← hg, (secretLookup_some hl).2]
    subst hsec
    have hev' : pod ∈ (pods.filter fun p =>
        p.ns == sa.ns && p.serviceAccountName == sa.name).filter
        (fun p => !hasImagePullSecret p (secretName sa) && isImagePullFailing p) := hev
    rw [List.mem_filter, Bool.and_eq_true] at hev'
    have h3 : hasImagePullSecret pod (secretName sa) = true := by
      unfold hasImagePullSecret
      have h0 : secretNameIndexed sa 0 = secretName sa := by simp [secretNameIndexed]
      exact List.elem_eq_true_of_mem (h0 ▸ hhas)
    have h4 := hev'.2.1
    rw [h3] at h4
    simp at h4

/-- C2 witness: a failing pod that carries the canonical secret is not
evicted, even though a pod list is consulted. -/
theorem evictor_gate_witness :
    podWithSecret ∉ (evictorReconcile saGoogle [secretConverged] [podWithSecret]).evictions :=
  evictor_gate saGoogle [secretConverged] [podWithSecret] podWithSecret
    (by decide) (by decide)

/-- C9 counterexample: the principal passes the configuration check and no
secret named `indexed_name(P, 0)` carrying the service-account label exists
(only an unlabeled, operator-style secret of that name), yet the pass is not
a no-op: the pod list is consulted and a failing pod is evicted.  The code
looks the secret up by name only, never checking the label. -/
theorem evictor_label_not_checked :
    hasConfig saGoogle = true ∧
    (∀ s ∈ [secretUnlabeled],
      ¬ annGet s.labels labelKeyServiceAccount = some saGoogle.name) ∧
    (evictorReconcile saGoogle [secretUnlabeled] [podFailing]).listedPods = true ∧
    (evictorReconcile saGoogle [secretUnlabeled] [podFailing]).evictions ≠ [] := by
  refine ⟨by decide, by decide, by decide, by decide⟩

/-- C9 (amended): with configuration present, the eviction pass is a complete
no-op — no pod list, no evictions, no requeue — whenever the principal's
attachment list is empty or no secret named `secret_name(P)` (the canonical
`indexed_name(P, 0)`) exists in its namespace, the label playing no role. -/
theorem evictorReconcile_noop (sa : ServiceAccount) (secrets : List Secret)
    (pods : List Pod) (_hc : hasConfig sa = true)
    (h : sa.imagePullSecrets = [] ∨ secretLookup secrets sa.ns (secretName sa) = none) :
    evictorReconcile sa secrets pods = ⟨false, [], false⟩ := by
  unfold evictorReconcile getProvisionedImagePullSecret
  rcases h with h | h
  · simp [h]
  · by_cases he : sa.imagePullSecrets.isEmpty
    · simp [he]
    · simp [he, h]

/-- C9 witness: the amended no-op at a configured principal with an empty
secret store. -/
theorem evictorReconcile_noop_witness :
    evictorReconcile saGoogle [] [podFailing] = ⟨false, [], false⟩ :=
  evictorReconcile_noop saGoogle [] [podFailing] (by decide) (Or.inr (by decide))

/-! C3 -/

theorem should_eq_of_absent {env : Env} {sa : ServiceAccount} {secrets : List Secret}
    {name : String} (hc : hasConfig sa = true)
    (hl : secretLookup secrets sa.ns name = none) :
    shouldCreateOrRefreshImagePullSecret env sa secrets name = .ok (true, none) := by
  unfold shouldCreateOrRefreshImagePullSecret
  simp [hc, hl]

theorem should_eq_of_unattached {env : Env} {sa : ServiceAccount} {secrets : List Secret}
    {name : String} {s : Secret} (hc : hasConfig sa = true)
    (hl : secretLookup secrets sa.ns name = some s)
    (hatt : sa.imagePullSecrets.contains s.name = false) :
    shouldCreateOrRefreshImagePullSecret env sa secrets name = .ok (true, none) := by
  have hmem : ¬ s.name ∈ sa.imagePullSecrets := by
    intro hm
    have hatt' : sa.imagePullSecrets.elem s.name = false := hatt
    rw [List.elem_eq_true_of_mem hm] at hatt'
    cases hatt'
  unfold shouldCreateOrRefreshImagePullSecret
  simp [hc, hl, hmem]

theorem should_eq_of_unparseable {env : Env} {sa : ServiceAccount} {secrets : List Secret}
    {name : String} {s : Secret} (hc : hasConfig sa = true)
    (hl : secretLookup secrets sa.ns name = some s)
    (hatt : sa.imagePullSecrets.contains s.name = true)
    (hb : (annGet s.annotations annotationKeyExpiresAt).bind env.parseTime = none) :
    shouldCreateOrRefreshImagePullSecret env sa secrets name = .ok (true, none) := by
  have hmem : s.name ∈ sa.imagePullSecrets := List.mem_of_elem_eq_true hatt
  unfold shouldCreateOrRefreshImagePullSecret
  cases hann : annGet s.annotations annotationKeyExpiresAt with
  | none => simp [hc, hl, hmem, hann]
  | some str =>
    rw [hann] at hb
    simp only [Option.some_bind] at hb
    simp [hc, hl, hmem, hann, hb]

theorem should_eq_of_parsed {env : Env} {sa : ServiceAccount} {secrets : List Secret}
    {name : String} {s : Secret} {e : Int} (hc : hasConfig sa = true)
    (hl : secretLookup secrets sa.ns name = some s)
    (hatt : sa.imagePullSecrets.contains s.name = true)
    (hb : (annGet s.annotations annotationKeyExpiresAt).bind env.parseTime = some e) :
    shouldCreateOrRefreshImagePullSecret env sa secrets name =
      .ok (if e - env.now < env.grace then (true, some e) else (false, some e)) := by
  have hmem : s.name ∈ sa.imagePullSecrets := List.mem_of_elem_eq_true hatt
  unfold shouldCreateOrRefreshImagePullSecret
  cases hann : annGet s.annotations annotationKeyExpiresAt with
  | none => rw [hann] at hb; simp at hb
  | some str =>
    rw [hann] at hb
    simp only [Option.some_bind] at hb
    by_cases hexp : e - env.now < env.grace
    · simp [hc, hl, hmem, hann, hb, hexp]
    · simp [hc, hl, hmem, hann, hb, hexp]

/-- C3: with configuration present, the refresh decision always succeeds (in
particular, a missing or unparseable `expires-at` annotation yields "refresh
required" with no error), and it returns "refresh required" exactly when the
secret is absent, or its name is missing from the principal's attachment
list, or the `expires-at` annotation is missing or unparseable, or the parsed
expiry minus now is below the grace period; in every remaining case the
decision is "no refresh" together with the parsed expiry, which then has at
least the grace period remaining.  (The grace period is held in `Env`; the
constructor sets it to one minute.  RFC 3339 parsing is the abstracted
`parseTime`.) -/
theorem shouldCreateOrRefresh_spec (env : Env) (sa : ServiceAccount)
    (secrets : List Secret) (name : String) (hc : hasConfig sa = true) :
    ∃ should expOpt,
      shouldCreateOrRefreshImagePullSecret env sa secrets name = .ok (should, expOpt) ∧
      (should = true ↔
        secretLookup secrets sa.ns name = none ∨
        (∃ s, secretLookup secrets sa.ns name = some s ∧
          (sa.imagePullSecrets.contains s.name = false ∨
           (annGet s.annotations annotationKeyExpiresAt).bind env.parseTime = none ∨
           (∃ e, (annGet s.annotations annotationKeyExpiresAt).bind env.parseTime = some e ∧
             e - env.now < env.grace)))) ∧
      (should = false →
        ∃ s e, secretLookup secrets sa.ns name = some s ∧
          (annGet s.annotations annotationKeyExpiresAt).bind env.parseTime = some e ∧
          expOpt = some e ∧ env.grace ≤ e - env.now) := by
  cases hl : secretLookup secrets sa.ns name with
  | none =>
    exact ⟨true, none, should_eq_of_absent hc hl, by simp, by simp⟩
  | some s =>
    cases hatt : sa.imagePullSecrets.contains s.name with
    | false =>
      refine ⟨true, none, should_eq_of_unattached hc hl hatt, ?_, by simp⟩
      simp only [true_iff]
      exact Or.inr ⟨s, rfl, Or.inl hatt⟩
    | true =>
      cases hb : (annGet s.annotations annotationKeyExpiresAt).bind env.parseTime with
      | none =>
        refine ⟨true, none, should_eq_of_unparseable hc hl hatt hb, ?_, by simp⟩
        simp only [true_iff]
        exact Or.inr ⟨s, rfl, Or.inr (Or.inl hb)⟩
      | some e =>
        by_cases hexp : e - env.now < env.grace
        · refine ⟨true, some e,
            by rw [should_eq_of_parsed hc hl hatt hb, if_pos hexp], ?_, by simp⟩
          simp only [true_iff]
          exact Or.inr ⟨s, rfl, Or.inr (Or.inr ⟨e, hb, hexp⟩)⟩
        · refine ⟨false, some e,
            by rw [should_eq_of_parsed hc hl hatt hb, if_neg hexp], ?_, ?_⟩
          · constructor
            · intro h
              exact absurd h (by simp)
            · intro h
              exfalso
              rcases h with h | ⟨s', hs', h⟩
              · exact Option.noConfusion h
              · have hss : s' = s := by
                  have := hs'.symm
                  simpa using this
                subst hss
                rcases h with h | h | ⟨e', he', hlt⟩
                · rw [hatt] at h
                  cases h
                · rw [hb] at h
                  cases h
                · rw [hb] at he'
                  have h9 : e = e' := by simpa using he'
                  omega
          · intro _
            exact ⟨s, e, rfl, hb, rfl, by omega⟩

/-- C3 witness: at a configured principal with an empty store the decision is
"refresh required" and no error is returned. -/
theorem shouldCreateOrRefresh_spec_witness :
    ∃ expOpt, shouldCreateOrRefreshImagePullSecret envW saGoogle [] "x" =
      Except.ok (true, expOpt) := by
  obtain ⟨should, expOpt, heq, hiff, _⟩ :=
    shouldCreateOrRefresh_spec envW saGoogle [] "x" (by decide)
  have hsh : should = true := hiff.mpr (Or.inl rfl)
  rw [hsh] at heq
  exact ⟨expOpt, heq⟩

/-! C1 -/

theorem provisionStep_no_refresh {env : Env} {st : ClusterState} (account : String)
    {i : Nat} {e : Int}
    (h : shouldCreateOrRefreshImagePullSecret env st.sa st.secrets
      (secretNameIndexed st.sa i) = .ok (false, some e)) :
    provisionSecretForAccount env st account i = (st, [], [], some e, none) := by
  unfold provisionSecretForAccount
  simp [h]

theorem provisionLoop_no_refresh (env : Env) (st : ClusterState) :
    ∀ (l : List String) (k : Nat) (r : Option Int),
      (∀ j, j < l.length → ∃ e, shouldCreateOrRefreshImagePullSecret env st.sa st.secrets
        (secretNameIndexed st.sa (k + j)) = .ok (false, some e)) →
      ∃ r', provisionLoop env st l k r = (st, [], [], r', none) := by
  intro l
  induction l with
  | nil => exact fun k r _ => ⟨r, rfl⟩
  | cons a rest ih =>
    intro k r h
    obtain ⟨e, he⟩ := h 0 (by simp)
    rw [Nat.add_zero] at he
    have hstep := provisionStep_no_refresh a he
    obtain ⟨r', hrest⟩ := ih (k + 1) (updateRequeue r (some e)) (fun j hj => by
      have hh := h (j + 1) (by simpa using hj)
      rwa [show k + (j + 1) = k + 1 + j by omega] at hh)
    refine ⟨r', ?_⟩
    show provisionLoop env st (a :: rest) k r = (st, [], [], r', none)
    unfold provisionLoop
    rw [hstep]
    simp only []
    rw [hrest]
    rfl

theorem cleanup_no_orphans (st : ClusterState)
    (h : ∀ s ∈ st.secrets, s.ns = st.sa.ns →
      annGet s.labels labelKeyServiceAccount = some st.sa.name →
      s.name ∈ namesInUse st.sa) :
    cleanupImagePullSecrets st = (st, [], []) := by
  have ht : listImagePullSecretsToCleanup st = [] := by
    unfold listImagePullSecretsToCleanup
    rw [List.filter_eq_nil_iff]
    intro s hs
    rw [List.mem_filter, Bool.and_eq_true] at hs
    have hns : s.ns = st.sa.ns := by
      have := hs.2.1
      simpa using this
    have hlab : annGet s.labels labelKeyServiceAccount = some st.sa.name := by
      have := hs.2.2
      simpa using this
    have hmem := h s hs.1 hns hlab
    simp [hmem]
  simp [cleanupImagePullSecrets, ht]

/-- C1: for a converged principal — configuration present, not marked for
deletion, each expected secret `indexed_name(P, i)` present, attached, with a
parseable `expires-at` at least the grace period in the future, and no
labeled secret outside the expected-name set — one provisioning pass performs
zero writes (no secret create, patch or delete, and no principal patch,
since the write list is empty), leaves the state untouched, and a second
pass over the resulting state again performs zero writes.  (Convergence of
the secrets' payloads is not even needed: the pass never compares content
unless the refresh decision fires.) -/
theorem reconcile_converged_no_writes (env : Env) (st : ClusterState)
    (hc : hasConfig st.sa = true)
    (hdel : st.sa.deleted = false)
    (hsec : ∀ i, i < (resolveAccounts st.sa).length →
      ∃ s, secretLookup st.secrets st.sa.ns (secretNameIndexed st.sa i) = some s ∧
        st.sa.imagePullSecrets.contains s.name = true ∧
        ∃ str e, annGet s.annotations annotationKeyExpiresAt = some str ∧
          env.parseTime str = some e ∧ env.grace ≤ e - env.now)
    (horph : ∀ s ∈ st.secrets, s.ns = st.sa.ns →
      annGet s.labels labelKeyServiceAccount = some st.sa.name →
      s.name ∈ namesInUse st.sa) :
    (reconcile env st).writes = [] ∧ (reconcile env st).state = st ∧
    (reconcile env (reconcile env st).state).writes = [] := by
  have hdec : ∀ j, j < (resolveAccounts st.sa).length →
      ∃ e, shouldCreateOrRefreshImagePullSecret env st.sa st.secrets
        (secretNameIndexed st.sa (0 + j)) = .ok (false, some e) := by
    intro j hj
    obtain ⟨s, hl, hatt, str, e, hann, hp, hge⟩ := hsec j hj
    have hb : (annGet s.annotations annotationKeyExpiresAt).bind env.parseTime
        = some e := by
      rw [hann]
      simpa using hp
    refine ⟨e, ?_⟩
    rw [Nat.zero_add]
    rw [should_eq_of_parsed hc hl hatt hb, if_neg (by omega)]
  obtain ⟨r', hloop⟩ :=
    provisionLoop_no_refresh env st (resolveAccounts st.sa) 0 none hdec
  have hclean := cleanup_no_orphans st horph
  have hres : reconcile env st =
      ⟨st, [], [], r'.map (fun t => t - env.grace - env.now), none⟩ := by
    unfold reconcile
    rw [hdel]
    simp only [Bool.false_eq_true, if_false, ite_false]
    rw [hc]
    simp only [if_true, ite_true]
    rw [hloop]
    simp only []
    rw [hclean]
    rfl
  refine ⟨by rw [hres], by rw [hres], ?_⟩
  have hstate : (reconcile env st).state = st := by rw [hres]
  rw [hstate, hres]

/-- C1 witness: the converged fixture; the pass writes nothing. -/
theorem reconcile_converged_no_writes_witness :
    (reconcile envW stConverged).writes = [] ∧
    (reconcile envW (reconcile envW stConverged).state).writes = [] := by
  have h := reconcile_converged_no_writes envW stConverged (by decide) (by decide)
    (by
      intro i hi
      have hi0 : i = 0 := by
        have : (resolveAccounts stConverged.sa).length = 1 := by decide
        omega
      subst hi0
      exact ⟨secretConverged, by decide, by decide,
        "2030-01-01T00:00:00Z", 1000, by decide, by decide, by decide⟩)
    (by
      intro s hs hns hlab
      have hs0 : s = secretConverged := by
        simpa [stConverged] using hs
      subst hs0
      decide)
  exact ⟨h.1, h.2.2⟩

/-! C10 -/

theorem secretName_congr {sa sa' : ServiceAccount} (h1 : sa.annotations = sa'.annotations)
    (h2 : sa.name = sa'.name) : secretName sa = secretName sa' := by
  unfold secretName annGet
  rw [h1, h2]

theorem secretNameIndexed_congr {sa sa' : ServiceAccount}
    (h1 : sa.annotations = sa'.annotations) (h2 : sa.name = sa'.name) (i : Nat) :
    secretNameIndexed sa i = secretNameIndexed sa' i := by
  unfold secretNameIndexed
  rw [secretName_congr h1 h2]

theorem secretLookup_append_single {l : List Secret} {d : Secret} {ns n : String}
    (h : n ≠ d.name) : secretLookup (l ++ [d]) ns n = secretLookup l ns n := by
  unfold secretLookup
  rw [List.find?_append]
  have hd : ((d.ns == ns) && (d.name == n)) = false := by
    have : (d.name == n) = false := by
      rw [beq_eq_false_iff_ne]
      exact fun e => h e.symm
    simp [this]
  cases hf : List.find? (fun s => s.ns == ns && s.name == n) l with
  | none => simp [List.find?, hd]
  | some s => rfl

theorem secretLookup_replace_other {l : List Secret} {d : Secret} {ns n : String}
    (h : n ≠ d.name) : secretLookup (replaceSecret l d) ns n = secretLookup l ns n := by
  have hdn : ((d.ns == ns) && (d.name == n)) = false := by
    have hb : (d.name == n) = false := by
      rw [beq_eq_false_iff_ne]
      exact fun e => h e.symm
    simp [hb]
  induction l with
  | nil => rfl
  | cons x xs ih =>
    have hrepl : replaceSecret (x :: xs) d
        = (if x.ns == d.ns && x.name == d.name then d else x) :: replaceSecret xs d := rfl
    rw [hrepl]
    by_cases hx : (x.ns == d.ns && x.name == d.name) = true
    · have hxname : x.name = d.name := by
        rw [Bool.and_eq_true] at hx
        exact eq_of_beq hx.2
      have hxn : ((x.ns == ns) && (x.name == n)) = false := by
        have hb : (x.name == n) = false := by
          rw [beq_eq_false_iff_ne]
          intro e
          exact h (hxname ▸ e).symm
        simp [hb]
      rw [if_pos hx]
      unfold secretLookup at ih ⊢
      rw [List.find?_cons_of_neg _ (by simp [hdn]), List.find?_cons_of_neg _ (by simp [hxn])]
      exact ih
    · rw [if_neg hx]
      unfold secretLookup at ih ⊢
      cases hpx : ((x.ns == ns) && (x.name == n)) with
      | true =>
        rw [List.find?_cons_of_pos _ (by simp [hpx]), List.find?_cons_of_pos _ (by simp [hpx])]
      | false =>
        rw [List.find?_cons_of_neg _ (by simp [hpx]), List.find?_cons_of_neg _ (by simp [hpx])]
        exact ih

theorem ensureSecret_sa (st : ClusterState) (d : Secret) :
    (ensureSecret st d).1.sa = st.sa := by
  unfold ensureSecret
  split
  · rfl
  · split
    · rfl
    · rfl

theorem ensureSecret_lookup_other {st : ClusterState} {d : Secret} {ns n : String}
    (h : n ≠ d.name) :
    secretLookup (ensureSecret st d).1.secrets ns n = secretLookup st.secrets ns n := by
  unfold ensureSecret
  split
  · exact secretLookup_append_single h
  · split
    · rfl
    · exact secretLookup_replace_other h

theorem ensureSecret_writes {st : ClusterState} {d : Secret} :
    ∀ wo ∈ (ensureSecret st d).2, writeTarget wo = some d.name ∧
      (∀ n, wo ≠ WriteOp.deleteSecret n) ∧ (∀ ns_, wo ≠ WriteOp.patchSADetach ns_) := by
  intro wo hw
  unfold ensureSecret at hw
  split at hw
  · have hwo : wo = WriteOp.createSecret d := by simpa using hw
    subst hwo
    exact ⟨rfl, fun n h => WriteOp.noConfusion h, fun ns_ h => WriteOp.noConfusion h⟩
  · split at hw
    · simp at hw
    · have hwo : wo = WriteOp.patchSecret d := by simpa using hw
      subst hwo
      exact ⟨rfl, fun n h => WriteOp.noConfusion h, fun ns_ h => WriteOp.noConfusion h⟩

theorem replaceSecret_presence (l : List Secret) (d : Secret) :
    ∀ s ∈ l, ∃ s', s' ∈ replaceSecret l d ∧ s'.ns = s.ns ∧ s'.name = s.name := by
  intro s hs
  by_cases hcond : (s.ns == d.ns && s.name == d.name) = true
  · refine ⟨d, ?_, ?_, ?_⟩
    · unfold replaceSecret
      have he : (fun x => if x.ns == d.ns && x.name == d.name then d else x) s = d := by
        simp [hcond]
      have hm := List.mem_map_of_mem
        (fun x => if x.ns == d.ns && x.name == d.name then d else x) hs
      rwa [he] at hm
    · rw [Bool.and_eq_true] at hcond
      exact (eq_of_beq hcond.1).symm
    · rw [Bool.and_eq_true] at hcond
      exact (eq_of_beq hcond.2).symm
  · refine ⟨s, ?_, rfl, rfl⟩
    unfold replaceSecret
    have he : (fun x => if x.ns == d.ns && x.name == d.name then d else x) s = s := by
      simp [hcond]
    have hm := List.mem_map_of_mem
      (fun x => if x.ns == d.ns && x.name == d.name then d else x) hs
    rwa [he] at hm

theorem ensureSecret_presence {st : ClusterState} {d : Secret} :
    ∀ s ∈ st.secrets, ∃ s', s' ∈ (ensureSecret st d).1.secrets ∧
      s'.ns = s.ns ∧ s'.name = s.name := by
  intro s hs
  unfold ensureSecret
  cases secretLookup st.secrets d.ns d.name with
  | none => exact ⟨s, by simp [hs], rfl, rfl⟩
  | some orig =>
    by_cases he : orig = d
    · exact ⟨s, by simp [he, hs], rfl, rfl⟩
    · have := replaceSecret_presence st.secrets d s hs
      simp only [he, if_false, ite_false]
      simpa using this

theorem attach_sa_fields (st : ClusterState) (name : String) :
    (attachImagePullSecret st name).1.sa.annotations = st.sa.annotations ∧
    (attachImagePullSecret st name).1.sa.name = st.sa.name ∧
    (attachImagePullSecret st name).1.sa.ns = st.sa.ns ∧
    (attachImagePullSecret st name).1.secrets = st.secrets := by
  unfold attachImagePullSecret
  split
  · exact ⟨rfl, rfl, rfl, rfl⟩
  · exact ⟨rfl, rfl, rfl, rfl⟩

theorem attach_writes (st : ClusterState) (name : String) :
    ∀ wo ∈ (attachImagePullSecret st name).2, writeTarget wo = some name ∧
      (∀ n, wo ≠ WriteOp.deleteSecret n) ∧ (∀ ns_, wo ≠ WriteOp.patchSADetach ns_) := by
  intro wo hw
  unfold attachImagePullSecret at hw
  split at hw
  · simp at hw
  · have hwo : wo = WriteOp.patchSAAttach name := by simpa using hw
    subst hwo
    exact ⟨rfl, fun n h => WriteOp.noConfusion h, fun ns_ h => WriteOp.noConfusion h⟩

/-- The per-step facts the abort analysis needs: one provisioning step keeps
the principal's identifying fields, writes only at `indexed_name(P, i)`,
never deletes or detaches, never emits a decommission event, leaves every
other name's lookup unchanged, and removes no secret. -/
theorem provisionStep_props (env : Env) (st : ClusterState) (account : String) (i : Nat)
    {st' : ClusterState} {w : List WriteOp} {ev : List Event} {x : Option Int}
    {err : Option String}
    (hstep : provisionSecretForAccount env st account i = (st', w, ev, x, err)) :
    st'.sa.annotations = st.sa.annotations ∧ st'.sa.name = st.sa.name ∧
    st'.sa.ns = st.sa.ns ∧
    (∀ wo ∈ w, writeTarget wo = some (secretNameIndexed st.sa i) ∧
      (∀ n, wo ≠ WriteOp.deleteSecret n) ∧ (∀ ns_, wo ≠ WriteOp.patchSADetach ns_)) ∧
    (∀ e' ∈ ev, ∀ ns_, e' ≠ Event.decommissioned ns_) ∧
    (∀ ns_ n, n ≠ secretNameIndexed st.sa i →
      secretLookup st'.secrets ns_ n = secretLookup st.secrets ns_ n) ∧
    (∀ s ∈ st.secrets, ∃ s', s' ∈ st'.secrets ∧ s'.ns = s.ns ∧ s'.name = s.name) := by
  rcases hshould : shouldCreateOrRefreshImagePullSecret env st.sa st.secrets
      (secretNameIndexed st.sa i) with e0 | p
  · have hval : provisionSecretForAccount env st account i = (st, [], [], none, some e0) := by
      unfold provisionSecretForAccount
      simp [hshould]
    rw [hval] at hstep
    obtain ⟨rfl, rfl, rfl, rfl, rfl⟩ := by simpa using hstep.symm
    exact ⟨rfl, rfl, rfl, by simp, by simp, fun _ _ _ => rfl,
      fun s hs => ⟨s, hs, rfl, rfl⟩⟩
  · obtain ⟨should, exp⟩ := p
    cases should with
    | false =>
      have hval : provisionSecretForAccount env st account i = (st, [], [], exp, none) := by
        unfold provisionSecretForAccount
        simp [hshould]
      rw [hval] at hstep
      obtain ⟨rfl, rfl, rfl, rfl, rfl⟩ := by simpa using hstep.symm
      exact ⟨rfl, rfl, rfl, by simp, by simp, fun _ _ _ => rfl,
        fun s hs => ⟨s, hs, rfl, rfl⟩⟩
    | true =>
      rcases hgen : env.generate account with eg | t
      · have hval : provisionSecretForAccount env st account i
            = (st, [], [Event.failedProvisioning eg], none, some eg) := by
          unfold provisionSecretForAccount
          simp [hshould, hgen]
        rw [hval] at hstep
        obtain ⟨rfl, rfl, rfl, rfl, rfl⟩ := by simpa using hstep.symm
        refine ⟨rfl, rfl, rfl, by simp, ?_, fun _ _ _ => rfl,
          fun s hs => ⟨s, hs, rfl, rfl⟩⟩
        intro e' he' ns_
        have he0 : e' = Event.failedProvisioning eg := by simpa using he'
        subst he0
        exact fun h => Event.noConfusion h
      · rcases t with ⟨uname, tok, newExp⟩
        have hval : provisionSecretForAccount env st account i
            = ((attachImagePullSecret (ensureSecret st (buildImagePullSecret
                 env.fmtTime st.sa (secretNameIndexed st.sa i)
                 (annGetD st.sa.annotations annotationKeyRegistry) uname tok newExp)).1
                 (secretNameIndexed st.sa i)).1,
               (ensureSecret st (buildImagePullSecret
                 env.fmtTime st.sa (secretNameIndexed st.sa i)
                 (annGetD st.sa.annotations annotationKeyRegistry) uname tok newExp)).2
               ++ (attachImagePullSecret (ensureSecret st (buildImagePullSecret
                 env.fmtTime st.sa (secretNameIndexed st.sa i)
                 (annGetD st.sa.annotations annotationKeyRegistry) uname tok newExp)).1
                 (secretNameIndexed st.sa i)).2,
               [Event.provisioned (secretNameIndexed st.sa i)], some newExp, none) := by
          unfold provisionSecretForAccount
          simp [hshould, hgen]
        rw [hval] at hstep
        obtain ⟨rfl, rfl, rfl, rfl, rfl⟩ := by simpa using hstep.symm
        refine ⟨?_, ?_, ?_, ?_, ?_, ?_, ?_⟩
        · rw [(attach_sa_fields _ _).1, ensureSecret_sa]
        · rw [(attach_sa_fields _ _).2.1, ensureSecret_sa]
        · rw [(attach_sa_fields _ _).2.2.1, ensureSecret_sa]
        · intro wo hw
          rw [List.mem_append] at hw
          rcases hw with hw | hw
          · exact ensureSecret_writes wo hw
          · exact attach_writes _ _ wo hw
        · intro e' he' ns_
          have he0 : e' = Event.provisioned (secretNameIndexed st.sa i) := by simpa using he'
          subst he0
          exact fun h => Event.noConfusion h
        · intro ns_ n hn
          rw [(attach_sa_fields _ _).2.2.2]
          exact ensureSecret_lookup_other hn
        · intro s hs
          rw [(attach_sa_fields _ _).2.2.2]
          exact ensureSecret_presence s hs

/-- The abort analysis of the per-account loop: when the loop starting at
index `k` aborts at index `i`, its writes target only the indexed names of
`k..i`, nothing is deleted or detached, no decommission event is emitted,
every other name's lookup is untouched, and no secret disappears. -/
theorem provisionLoop_abort (env : Env) :
    ∀ (l : List String) (st : ClusterState) (k : Nat) (r : Option Int)
      {st' : ClusterState} {w : List WriteOp} {ev : List Event} {r' : Option Int}
      {i : Nat} {msg : String},
      provisionLoop env st l k r = (st', w, ev, r', some (i, msg)) →
      (st'.sa.annotations = st.sa.annotations ∧ st'.sa.name = st.sa.name ∧
        st'.sa.ns = st.sa.ns) ∧
      k ≤ i ∧
      (∀ wo ∈ w, (∃ j, k ≤ j ∧ j ≤ i ∧ writeTarget wo = some (secretNameIndexed st.sa j)) ∧
        (∀ n, wo ≠ WriteOp.deleteSecret n) ∧ (∀ ns_, wo ≠ WriteOp.patchSADetach ns_)) ∧
      (∀ e' ∈ ev, ∀ ns_, e' ≠ Event.decommissioned ns_) ∧
      (∀ ns_ n, (∀ j, k ≤ j → j ≤ i → n ≠ secretNameIndexed st.sa j) →
        secretLookup st'.secrets ns_ n = secretLookup st.secrets ns_ n) ∧
      (∀ s ∈ st.secrets, ∃ s', s' ∈ st'.secrets ∧ s'.ns = s.ns ∧ s'.name = s.name) := by
  intro l
  induction l with
  | nil =>
    intro st k r st' w ev r' i msg h
    rw [show provisionLoop env st [] k r = (st, [], [], r, none) from rfl] at h
    have hcontra := congrArg (fun t => t.2.2.2.2) h
    simp at hcontra
  | cons a rest ih =>
    intro st k r st' w ev r' i msg h
    rcases hstep : provisionSecretForAccount env st a k with ⟨st1, w1, ev1, exp1, err1⟩
    obtain ⟨hann, hname, hns, hwrites, hevents, hlook, hpres⟩ :=
      provisionStep_props env st a k hstep
    have hcongr : ∀ j, secretNameIndexed st1.sa j = secretNameIndexed st.sa j :=
      fun j => secretNameIndexed_congr hann hname j
    cases err1 with
    | some msg0 =>
      have hl : provisionLoop env st (a :: rest) k r
          = (st1, w1, ev1, updateRequeue r exp1, some (k, msg0)) := by
        unfold provisionLoop
        simp only [hstep]
      have hcomp : st1 = st' ∧ w1 = w ∧ ev1 = ev ∧
          updateRequeue r exp1 = r' ∧ (k, msg0) = (i, msg) := by
        simpa using hl.symm.trans h
      obtain ⟨rfl, rfl, rfl, rfl, hkim⟩ := hcomp
      have hki : k = i := by
        have := congrArg Prod.fst hkim
        simpa using this
      subst hki
      refine ⟨⟨hann, hname, hns⟩, le_refl k, ?_, hevents, ?_, hpres⟩
      · intro wo hw
        obtain ⟨htar, hnd, hnt⟩ := hwrites wo hw
        exact ⟨⟨k, le_refl k, le_refl k, htar⟩, hnd, hnt⟩
      · intro ns_ n hn
        exact hlook ns_ n (hn k (le_refl k) (le_refl k))
    | none =>
      rcases hnext : provisionLoop env st1 rest (k + 1) (updateRequeue r exp1)
        with ⟨st2, w2, ev2, r2, err2⟩
      have hl : provisionLoop env st (a :: rest) k r
          = (st2, w1 ++ w2, ev1 ++ ev2, r2, err2) := by
        unfold provisionLoop
        simp only [hstep, hnext]
      have hcomp : st2 = st' ∧ w1 ++ w2 = w ∧ ev1 ++ ev2 = ev ∧
          r2 = r' ∧ err2 = some (i, msg) := by
        simpa using hl.symm.trans h
      obtain ⟨rfl, rfl, rfl, rfl, herr2⟩ := hcomp
      rw [herr2] at hnext
      obtain ⟨⟨hann2, hname2, hns2⟩, hki, hw2, hev2, hlk2, hpr2⟩ :=
        ih st1 (k + 1) (updateRequeue r exp1) hnext
      refine ⟨⟨hann2.trans hann, hname2.trans hname, hns2.trans hns⟩, by omega, ?_, ?_, ?_, ?_⟩
      · intro wo hw
        rw [List.mem_append] at hw
        rcases hw with hw | hw
        · obtain ⟨htar, hnd, hnt⟩ := hwrites wo hw
          exact ⟨⟨k, le_refl k, by omega, htar⟩, hnd, hnt⟩
        · obtain ⟨⟨j, hj1, hj2, htar⟩, hnd, hnt⟩ := hw2 wo hw
          exact ⟨⟨j, by omega, hj2, by rw [htar, hcongr j]⟩, hnd, hnt⟩
      · intro e' he' ns_
        rw [List.mem_append] at he'
        rcases he' with he' | he'
        · exact hevents e' he' ns_
        · exact hev2 e' he' ns_
      · intro ns_ n hn
        have h2 := hlk2 ns_ n (fun j hj1 hj2 => by
          rw [hcongr j]
          exact hn j (by omega) hj2)
        rw [h2]
        exact hlook ns_ n (hn k (le_refl k) (by omega))
      · intro s hs
        obtain ⟨s1, hs1, hns1, hname1⟩ := hpres s hs
        obtain ⟨s2, hs2, hns2, hname2⟩ := hpr2 s1 hs1
        exact ⟨s2, hs2, hns2.trans hns1, hname2.trans hname1⟩

/-- C10: when a multi-account pass aborts at account index `i` (the pass's
returned error records the failing index — the only fallible step in the
model is credential generation; the decision step's store `Get` and the
ensure/attach writes cannot fail in an explicit store), the error is
surfaced immediately: the cleanup step never runs (nothing is deleted, no
detach patch is issued, no decommission event is emitted), every write of
the pass targets `indexed_name(P, j)` for some `j ≤ i` (so accounts after
`i` are untouched), lookups at every other name are unchanged, and no
secret present before the pass has disappeared — secrets provisioned for
indexes before `i` are left in place. -/
theorem reconcile_abort_spec (env : Env) (st : ClusterState) (i : Nat) (msg : String)
    (hc : hasConfig st.sa = true) (hdel : st.sa.deleted = false)
    (_hmulti : 1 < (resolveAccounts st.sa).length)
    (herr : (reconcile env st).error = some (i, msg)) :
    (∀ n, WriteOp.deleteSecret n ∉ (reconcile env st).writes) ∧
    (∀ ns_, WriteOp.patchSADetach ns_ ∉ (reconcile env st).writes) ∧
    (∀ ns_, Event.decommissioned ns_ ∉ (reconcile env st).events) ∧
    (∀ wo ∈ (reconcile env st).writes, ∀ n, writeTarget wo = some n →
      ∃ j, j ≤ i ∧ n = secretNameIndexed st.sa j) ∧
    (∀ ns_ n, (∀ j, j ≤ i → n ≠ secretNameIndexed st.sa j) →
      secretLookup (reconcile env st).state.secrets ns_ n = secretLookup st.secrets ns_ n) ∧
    (∀ s ∈ st.secrets, ∃ s', s' ∈ (reconcile env st).state.secrets ∧
      s'.ns = s.ns ∧ s'.name = s.name) := by
  rcases hloop : provisionLoop env st (resolveAccounts st.sa) 0 none
    with ⟨st1, w1, e1, r1, perr⟩
  cases perr with
  | none =>
    exfalso
    have hnone : (reconcile env st).error = none := by
      simp [reconcile, hdel, hc, hloop]
    rw [herr] at hnone
    exact Option.noConfusion hnone
  | some ie =>
    have hres : reconcile env st = ⟨st1, w1, e1, none, some ie⟩ := by
      simp [reconcile, hdel, hc, hloop]
    have hie : ie = (i, msg) := by
      rw [hres] at herr
      simpa using herr
    subst hie
    simp only [hres]
    obtain ⟨_, _, habw, habe, hablk, habpr⟩ :=
      provisionLoop_abort env (resolveAccounts st.sa) st 0 none hloop
    refine ⟨?_, ?_, ?_, ?_, ?_, ?_⟩
    · intro n hmem
      exact absurd rfl ((habw _ hmem).2.1 n)
    · intro ns_ hmem
      exact absurd rfl ((habw _ hmem).2.2 ns_)
    · intro ns_ hmem
      exact absurd rfl (habe _ hmem ns_)
    · intro wo hw n htar
      obtain ⟨⟨j, _, hji, htar'⟩, _, _⟩ := habw wo hw
      refine ⟨j, hji, ?_⟩
      rw [htar] at htar'
      exact (Option.some.injEq _ _ ▸ htar' : n = secretNameIndexed st.sa j)
    · intro ns_ n hn
      exact hablk ns_ n (fun j _ hji => hn j hji)
    · exact habpr

/-- C10 witness: with the two-account fixture failing at index 1, the pass
has emitted no decommission event and issued no detach patch. -/
theorem reconcile_abort_spec_witness :
    Event.decommissioned ["imagepullsecret-sa-0"] ∉ (reconcile envC10 stC10).events ∧
    WriteOp.patchSADetach ["imagepullsecret-sa-0"] ∉ (reconcile envC10 stC10).writes :=
  ⟨(reconcile_abort_spec envC10 stC10 1 "boom" (by decide) (by decide) (by decide)
      (by decide)).2.2.1 ["imagepullsecret-sa-0"],
   (reconcile_abort_spec envC10 stC10 1 "boom" (by decide) (by decide) (by decide)
      (by decide)).2.1 ["imagepullsecret-sa-0"]⟩

end Provisioner
